import Mathlib

/-!
Verification of the `fourierbasis` package (`src/fourierbasis/fourierbasis.py`).

The module defines one class, `FourierBasis(features, order)`.  Its constructor
builds

  `self.coeff = torch.tensor(list(product(range(order + 1), repeat=features)),
                             dtype=torch.float32).T * math.pi`

followed by `assert self.coeff.shape == (features, (order + 1) ** features)`,
and `forward(x)` returns `torch.cos(x @ self.coeff)`.

The embedding below models the Python/torch values involved: the enumeration
`itertools.product`, the shape that `torch.tensor` infers from a Python list,
transposition, the constructor assertion (construction returns `none` when the
assertion raises `AssertionError`), and matrix multiplication followed by
elementwise cosine (`forward` returns `none` when `@` raises a shape error).
Finite float arithmetic is idealized as exact real arithmetic; a separate value
type `FP` models IEEE-754 non-finite propagation where a claim depends on it.
-/

/-- Python `range(order + 1)` for an integer `order`: the list
`[0, 1, ..., order]`, empty when `order < 0`. -/
def pyRange (order : ℤ) : List ℕ :=
  List.range (order + 1).toNat

/-- Python `itertools.product(vals, repeat=f)`: all length-`f` tuples with
components drawn from `vals`, enumerated with the first position varying
slowest (standard nested iteration order). -/
def pyProduct (vals : List ℕ) : ℕ → List (List ℕ)
  | 0 => [[]]
  | f + 1 => vals.flatMap (fun i => (pyProduct vals f).map (fun t => i :: t))

/-- The shape `torch.tensor(l)` infers from a Python list of equal-length
tuples: `[0]` for the empty list (an empty one-dimensional tensor),
`[len(l), len(l[0])]` otherwise. -/
def tensorShape (l : List (List ℕ)) : List ℕ :=
  match l with
  | [] => [0]
  | r :: rs => [rs.length + 1, r.length]

/-- The constructor assertion
`assert self.coeff.shape == (features, (order + 1) ** features)`.
`.T` reverses the inferred shape (for one-dimensional tensors `.T` is the
identity, and reversing a one-element shape is also the identity), and the
comparison is against the Python integer pair, computed in `ℤ`. -/
def assertShape (features : ℕ) (order : ℤ) : Bool :=
  ((tensorShape (pyProduct (pyRange order) features)).reverse.map (Int.ofNat ·))
    == [(features : ℤ), (order + 1) ^ features]

/-- A two-dimensional real tensor with explicit shape; entries outside the
shape are junk values never relied upon. -/
structure Tensor2 where
  rows : ℕ
  cols : ℕ
  entry : ℕ → ℕ → ℝ

/-- `torch.tensor(l, dtype=torch.float32)` for a nonempty Python list of
equal-length integer tuples, with finite float values idealized as reals. -/
def tensorOfList (l : List (List ℕ)) : Tensor2 where
  rows := l.length
  cols := (l.headD []).length
  entry := fun i j => ((l.getD i []).getD j 0 : ℝ)

/-- `t.T`: transposition of a two-dimensional tensor. -/
def Tensor2.transpose (t : Tensor2) : Tensor2 where
  rows := t.cols
  cols := t.rows
  entry := fun i j => t.entry j i

/-- `t * c`: elementwise multiplication of a tensor by a Python scalar. -/
def Tensor2.mulScalar (t : Tensor2) (c : ℝ) : Tensor2 :=
  { t with entry := fun i j => t.entry i j * c }

/-- `x @ y` for two-dimensional tensors with matching inner dimensions:
standard matrix multiplication. -/
noncomputable def Tensor2.matmul (a b : Tensor2) : Tensor2 where
  rows := a.rows
  cols := b.cols
  entry := fun i j => ∑ k ∈ Finset.range a.cols, a.entry i k * b.entry k j

/-- `torch.cos(t)`: elementwise cosine. -/
noncomputable def Tensor2.cosT (t : Tensor2) : Tensor2 :=
  { t with entry := fun i j => Real.cos (t.entry i j) }

/-- The state of a constructed `FourierBasis` module: the configuration and
the stored (frozen, `requires_grad=False`) coefficient tensor `self.coeff`. -/
structure FourierBasis where
  features : ℕ
  order : ℤ
  coeff : Tensor2

/-- The coefficient tensor built by `FourierBasis.__init__`:
`torch.tensor(list(product(range(order + 1), repeat=features))).T * math.pi`. -/
noncomputable def coeffTensor (features : ℕ) (order : ℤ) : Tensor2 :=
  ((tensorOfList (pyProduct (pyRange order) features)).transpose).mulScalar Real.pi

/-- `FourierBasis(features, order)`: the constructed module when the shape
assertion passes, `none` when the assertion raises `AssertionError`. -/
noncomputable def FourierBasis.make (features : ℕ) (order : ℤ) : Option FourierBasis :=
  if assertShape features order then
    some ⟨features, order, coeffTensor features order⟩
  else
    none

/-- `FourierBasis.forward` on a two-dimensional input:
`torch.cos(x @ self.coeff)`; the result is `none` when `x @ self.coeff`
raises because the inner dimensions disagree. -/
noncomputable def FourierBasis.forward (fb : FourierBasis) (x : Tensor2) : Option Tensor2 :=
  if x.cols = fb.coeff.rows then
    some (Tensor2.cosT (Tensor2.matmul x fb.coeff))
  else
    none

/-- A three-dimensional real tensor with explicit shape. -/
structure Tensor3 where
  dim0 : ℕ
  rows : ℕ
  cols : ℕ
  entry : ℕ → ℕ → ℕ → ℝ

/-- `x @ y` for a three-dimensional `x` and two-dimensional `y` (torch
broadcasts `y` across the leading axis and batch-multiplies). -/
noncomputable def Tensor3.matmul2 (a : Tensor3) (b : Tensor2) : Tensor3 where
  dim0 := a.dim0
  rows := a.rows
  cols := b.cols
  entry := fun i r j => ∑ k ∈ Finset.range a.cols, a.entry i r k * b.entry k j

/-- `torch.cos` on a three-dimensional tensor. -/
noncomputable def Tensor3.cosT (t : Tensor3) : Tensor3 :=
  { t with entry := fun i r j => Real.cos (t.entry i r j) }

/-- The two-dimensional slice `x[i]` of a three-dimensional tensor. -/
def Tensor3.slice (x : Tensor3) (i : ℕ) : Tensor2 :=
  ⟨x.rows, x.cols, fun r j => x.entry i r j⟩

/-- `FourierBasis.forward` on a three-dimensional input: `torch.cos` of the
broadcast matrix product, `none` on an inner-dimension mismatch. -/
noncomputable def FourierBasis.forward3 (fb : FourierBasis) (x : Tensor3) : Option Tensor3 :=
  if x.cols = fb.coeff.rows then
    some (Tensor3.cosT (Tensor3.matmul2 x fb.coeff))
  else
    none

/-- An IEEE-754 style scalar: a finite value (idealized as an exact real), a
signed infinity, or NaN.  `torch.float32` arithmetic follows these
non-finite propagation rules. -/
inductive FP where
  | num : ℝ → FP
  | pinf : FP
  | ninf : FP
  | nan : FP

/-- IEEE-754 addition on `FP` values (finite arithmetic idealized as exact). -/
def FP.add : FP → FP → FP
  | nan, _ => nan
  | _, nan => nan
  | num a, num b => num (a + b)
  | num _, pinf => pinf
  | pinf, num _ => pinf
  | pinf, pinf => pinf
  | num _, ninf => ninf
  | ninf, num _ => ninf
  | ninf, ninf => ninf
  | pinf, ninf => nan
  | ninf, pinf => nan

/-- IEEE-754 multiplication on `FP` values; in particular `0 * ±inf = NaN`. -/
noncomputable def FP.mul : FP → FP → FP
  | nan, _ => nan
  | _, nan => nan
  | num a, num b => num (a * b)
  | num a, pinf => if 0 < a then pinf else if a < 0 then ninf else nan
  | pinf, num a => if 0 < a then pinf else if a < 0 then ninf else nan
  | num a, ninf => if 0 < a then ninf else if a < 0 then pinf else nan
  | ninf, num a => if 0 < a then ninf else if a < 0 then pinf else nan
  | pinf, pinf => pinf
  | pinf, ninf => ninf
  | ninf, pinf => ninf
  | ninf, ninf => pinf

/-- Floating-point cosine: `cos(±inf) = NaN`, `cos(NaN) = NaN`. -/
noncomputable def FP.cosF : FP → FP
  | num a => num (Real.cos a)
  | _ => nan

/-- A two-dimensional tensor of `FP` values. -/
structure FPTensor2 where
  rows : ℕ
  cols : ℕ
  entry : ℕ → ℕ → FP

/-- Matrix multiplication over `FP` values (row-times-column sums folded in
index order, starting from `0.0`). -/
noncomputable def FPTensor2.matmul (a b : FPTensor2) : FPTensor2 where
  rows := a.rows
  cols := b.cols
  entry := fun i j =>
    ((List.range a.cols).map (fun k => FP.mul (a.entry i k) (b.entry k j))).foldr
      FP.add (FP.num 0)

/-- Elementwise floating-point cosine. -/
noncomputable def FPTensor2.cosT (t : FPTensor2) : FPTensor2 :=
  { t with entry := fun i j => FP.cosF (t.entry i j) }

/-- A real tensor viewed as a tensor of finite floating-point values. -/
noncomputable def Tensor2.toFP (t : Tensor2) : FPTensor2 :=
  ⟨t.rows, t.cols, fun i j => FP.num (t.entry i j)⟩

/-- `FourierBasis.forward` evaluated with IEEE non-finite propagation made
explicit: the stored coefficients are finite, the input entries may be
infinities or NaN. -/
noncomputable def FourierBasis.forwardFP (fb : FourierBasis) (x : FPTensor2) : Option FPTensor2 :=
  if x.cols = fb.coeff.rows then
    some (FPTensor2.cosT (FPTensor2.matmul x fb.coeff.toFP))
  else
    none

/-! ### Basic facts about the enumeration `pyProduct` -/

theorem pyProduct_length (vals : List ℕ) (f : ℕ) :
    (pyProduct vals f).length = vals.length ^ f := by
  induction f with
  | zero => rfl
  | succ f ih =>
    simp only [pyProduct, List.length_flatMap, Function.comp_def, List.length_map, ih,
      List.map_const', List.sum_replicate, smul_eq_mul, pow_succ]
    exact Nat.mul_comm _ _

theorem pyProduct_mem (vals : List ℕ) (f : ℕ) (t : List ℕ) :
    t ∈ pyProduct vals f ↔ t.length = f ∧ ∀ v ∈ t, v ∈ vals := by
  induction f generalizing t with
  | zero =>
    constructor
    · intro h
      simp only [pyProduct, List.mem_singleton] at h
      subst h
      simp
    · rintro ⟨h1, _⟩
      simp [pyProduct, List.length_eq_zero.mp h1]
  | succ f ih =>
    constructor
    · intro h
      simp only [pyProduct, List.mem_flatMap, List.mem_map] at h
      obtain ⟨i, hi, s, hs, rfl⟩ := h
      obtain ⟨hl, hv⟩ := (ih s).mp hs
      refine ⟨by simp [hl], ?_⟩
      intro v hv2
      rcases List.mem_cons.mp hv2 with rfl | h2
      · exact hi
      · exact hv v h2
    · rintro ⟨hl, hv⟩
      cases t with
      | nil => simp at hl
      | cons i s =>
        simp only [pyProduct, List.mem_flatMap, List.mem_map]
        refine ⟨i, hv i (by simp), s, (ih s).mpr ⟨by simpa using hl, ?_⟩, rfl⟩
        intro v h
        exact hv v (by simp [h])

theorem pyProduct_nodup (vals : List ℕ) (h : vals.Nodup) (f : ℕ) :
    (pyProduct vals f).Nodup := by
  induction f with
  | zero => simp [pyProduct]
  | succ f ih =>
    rw [pyProduct, List.nodup_flatMap]
    constructor
    · intro i _
      refine ih.map ?_
      intro a b hab
      injection hab
    · refine h.imp ?_
      intro a b hne x hx hy
      simp only [List.mem_map] at hx hy
      obtain ⟨s, _, rfl⟩ := hx
      obtain ⟨u, _, he⟩ := hy
      injection he with h1 _
      exact hne h1.symm

theorem pyProduct_pairwise_lex (vals : List ℕ) (h : vals.Pairwise (· < ·)) (f : ℕ) :
    (pyProduct vals f).Pairwise (List.Lex (· < ·)) := by
  induction f with
  | zero => simp [pyProduct]
  | succ f ih =>
    rw [pyProduct, List.pairwise_flatMap]
    constructor
    · intro i _
      rw [List.pairwise_map]
      exact ih.imp (fun hab => List.Lex.cons hab)
    · refine h.imp ?_
      intro a b hlt x hx y hy
      simp only [List.mem_map] at hx hy
      obtain ⟨s, _, rfl⟩ := hx
      obtain ⟨u, _, rfl⟩ := hy
      exact List.Lex.rel hlt

theorem pyProduct_ne_nil (vals : List ℕ) (hv : vals ≠ []) (f : ℕ) :
    pyProduct vals f ≠ [] := by
  have h1 : 0 < vals.length := List.length_pos.mpr hv
  have h2 : 0 < (pyProduct vals f).length := by
    rw [pyProduct_length]
    exact pow_pos h1 f
  exact List.length_pos.mp h2

theorem pyProduct_headD_length (vals : List ℕ) (hv : vals ≠ []) (f : ℕ) :
    ((pyProduct vals f).headD []).length = f := by
  have hne := pyProduct_ne_nil vals hv f
  have hmem : (pyProduct vals f).headD [] ∈ pyProduct vals f := by
    cases hl : pyProduct vals f with
    | nil => exact absurd hl hne
    | cons a l => simp
  exact ((pyProduct_mem vals f _).mp hmem).1

/-! ### Basic facts about `pyRange` -/

theorem pyRange_mem (order : ℤ) (v : ℕ) : v ∈ pyRange order ↔ (v : ℤ) ≤ order := by
  simp only [pyRange, List.mem_range]
  omega

theorem pyRange_nodup (order : ℤ) : (pyRange order).Nodup :=
  List.nodup_range _

theorem pyRange_pairwise (order : ℤ) : (pyRange order).Pairwise (· < ·) :=
  List.pairwise_lt_range _

theorem pyRange_ne_nil (order : ℤ) (ho : 0 ≤ order) : pyRange order ≠ [] := by
  simp only [pyRange, ne_eq, List.range_eq_nil]
  omega

/-! ### The constructor assertion and the constructed coefficient tensor -/

theorem tensorShape_of_ne_nil (l : List (List ℕ)) (h : l ≠ []) :
    tensorShape l = [l.length, (l.headD []).length] := by
  cases l with
  | nil => exact absurd rfl h
  | cons r rs => rfl

theorem assertShape_of_nonneg (features : ℕ) (order : ℤ) (ho : 0 ≤ order) :
    assertShape features order = true := by
  have hv := pyRange_ne_nil order ho
  rw [assertShape, tensorShape_of_ne_nil _ (pyProduct_ne_nil _ hv features),
    pyProduct_headD_length _ hv, pyProduct_length]
  have h2 : (((order + 1).toNat : ℤ)) = order + 1 := Int.toNat_of_nonneg (by omega)
  simp only [pyRange, List.length_range, List.reverse_cons, List.reverse_nil,
    List.nil_append, List.cons_append, List.map_cons, List.map_nil, beq_iff_eq,
    List.cons.injEq, and_true, Int.ofNat_eq_coe]
  refine ⟨trivial, ?_⟩
  push_cast [h2]
  rfl

theorem assertShape_zero_features (order : ℤ) : assertShape 0 order = true := by
  simp [assertShape, pyProduct, tensorShape]

theorem assertShape_of_neg (features : ℕ) (order : ℤ) (hf : 1 ≤ features) (ho : order < 0) :
    assertShape features order = false := by
  have hv : pyRange order = [] := by
    simp only [pyRange, List.range_eq_nil]
    omega
  obtain ⟨f, rfl⟩ : ∃ f, features = f + 1 := ⟨features - 1, by omega⟩
  rw [assertShape, hv]
  simp [pyProduct, tensorShape]

theorem make_of_assert (features : ℕ) (order : ℤ) (h : assertShape features order = true) :
    FourierBasis.make features order = some ⟨features, order, coeffTensor features order⟩ := by
  rw [FourierBasis.make, if_pos h]

theorem make_inv (features : ℕ) (order : ℤ) (fb : FourierBasis)
    (h : FourierBasis.make features order = some fb) :
    fb = ⟨features, order, coeffTensor features order⟩ ∧ assertShape features order = true := by
  rw [FourierBasis.make] at h
  by_cases hb : assertShape features order = true
  · rw [if_pos hb] at h
    exact ⟨(Option.some.inj h).symm, hb⟩
  · rw [if_neg hb] at h
    exact absurd h (by simp)

theorem coeffTensor_cols (features : ℕ) (order : ℤ) :
    (coeffTensor features order).cols = (order + 1).toNat ^ features := by
  simp [coeffTensor, Tensor2.mulScalar, Tensor2.transpose, tensorOfList,
    pyProduct_length, pyRange, List.length_range]

theorem coeffTensor_rows (features : ℕ) (order : ℤ) (ho : 0 ≤ order) :
    (coeffTensor features order).rows = features := by
  have h := pyProduct_headD_length (pyRange order) (pyRange_ne_nil order ho) features
  simpa [coeffTensor, Tensor2.mulScalar, Tensor2.transpose, tensorOfList] using h

theorem coeffTensor_entry (features : ℕ) (order : ℤ) (k j : ℕ) :
    (coeffTensor features order).entry k j =
      (((pyProduct (pyRange order) features).getD j []).getD k 0 : ℝ) * Real.pi := rfl

theorem make_coeff_rows (features : ℕ) (order : ℤ) (fb : FourierBasis)
    (h : FourierBasis.make features order = some fb) : fb.coeff.rows = features := by
  obtain ⟨rfl, ha⟩ := make_inv features order fb h
  by_cases ho : 0 ≤ order
  · exact coeffTensor_rows features order ho
  · by_cases hf : 1 ≤ features
    · rw [assertShape_of_neg features order hf (by omega)] at ha
      exact absurd ha (by simp)
    · have hz : features = 0 := by omega
      subst hz
      rfl

theorem forward_of_cols (fb : FourierBasis) (x : Tensor2) (h : x.cols = fb.coeff.rows) :
    fb.forward x = some (Tensor2.cosT (Tensor2.matmul x fb.coeff)) := by
  rw [FourierBasis.forward, if_pos h]

/-- The encoder constructed by `FourierBasis(1, 0)`. -/
noncomputable def fbOneZero : FourierBasis := ⟨1, 0, coeffTensor 1 0⟩

theorem make_one_zero : FourierBasis.make 1 0 = some fbOneZero :=
  make_of_assert 1 0 (by decide)

/-- The encoder constructed by `FourierBasis(1, 1)`. -/
noncomputable def fbOneOne : FourierBasis := ⟨1, 1, coeffTensor 1 1⟩

theorem make_one_one : FourierBasis.make 1 1 = some fbOneOne :=
  make_of_assert 1 1 (by decide)

/-! ### Claims -/

/-- Claim C1: for every encoder constructed with `features ≥ 1` and `order ≥ 0`
and every input `x` of shape `(batch, features)`, `forward` succeeds, returns
the elementwise cosine of the matrix product of `x` with the stored coefficient
tensor (entry `[i, j] = cos (Σ k < features, x[i, k] * coeff[k, j])`), and the
result has shape `(batch, (order + 1) ^ features)`. -/
theorem c1_forward_is_cos_matmul (features : ℕ) (order : ℤ) (fb : FourierBasis)
    (hf : 1 ≤ features) (ho : 0 ≤ order)
    (hmk : FourierBasis.make features order = some fb)
    (x : Tensor2) (hx : x.cols = features) :
    ∃ y, fb.forward x = some y ∧
      y = Tensor2.cosT (Tensor2.matmul x fb.coeff) ∧
      y.rows = x.rows ∧ y.cols = (order + 1).toNat ^ features ∧
      ∀ i j, y.entry i j =
        Real.cos (∑ k ∈ Finset.range features, x.entry i k * fb.coeff.entry k j) := by
  have hrows := make_coeff_rows features order fb hmk
  obtain ⟨rfl, -⟩ := make_inv features order fb hmk
  refine ⟨_, forward_of_cols _ x (by rw [hx]; exact hrows.symm), rfl, rfl, ?_, ?_⟩
  · exact coeffTensor_cols features order
  · intro i j
    simp only [Tensor2.cosT, Tensor2.matmul]
    rw [hx]

/-- Claim C3: for every `features ≥ 1` and `order ≥ 0`, construction succeeds
(the constructor shape assertion holds, so it never raises) and the coefficient
tensor has exactly `features` rows and `(order + 1) ^ features` columns. -/
theorem c3_construction_succeeds (features : ℕ) (order : ℤ)
    (hf : 1 ≤ features) (ho : 0 ≤ order) :
    assertShape features order = true ∧
    ∃ fb, FourierBasis.make features order = some fb ∧
      fb.coeff.rows = features ∧ fb.coeff.cols = (order + 1).toNat ^ features := by
  refine ⟨assertShape_of_nonneg features order ho, _,
    make_of_assert features order (assertShape_of_nonneg features order ho),
    coeffTensor_rows features order ho, coeffTensor_cols features order⟩

/-- Claim C5: for every constructed encoder, `forward` on a two-dimensional
input whose second dimension differs from the configured `features` fails with
the shape-mismatch error from `x @ self.coeff`. -/
theorem c5_shape_mismatch_fails (features : ℕ) (order : ℤ) (fb : FourierBasis)
    (hmk : FourierBasis.make features order = some fb)
    (x : Tensor2) (hx : x.cols ≠ features) :
    fb.forward x = none := by
  rw [FourierBasis.forward, if_neg]
  rw [make_coeff_rows features order fb hmk]
  exact hx

/-- Claim C8: construction and encoding are deterministic: two encoders built
from the same `(features, order)` are equal, have equal coefficient tensors,
and agree on every input (repeated calls trivially agree because `forward` is
a pure function of the encoder and the input). -/
theorem c8_deterministic (features : ℕ) (order : ℤ) (hf : 1 ≤ features) (ho : 0 ≤ order)
    (fb1 fb2 : FourierBasis)
    (h1 : FourierBasis.make features order = some fb1)
    (h2 : FourierBasis.make features order = some fb2) :
    fb1 = fb2 ∧ fb1.coeff = fb2.coeff ∧
      (∀ x : Tensor2, fb1.forward x = fb2.forward x) ∧
      (∀ x : Tensor3, fb1.forward3 x = fb2.forward3 x) := by
  have he : fb1 = fb2 := Option.some.inj (h1.symm.trans h2)
  subst he
  exact ⟨rfl, rfl, fun _ => rfl, fun _ => rfl⟩

/-- Claim C9: constructing with `features = 0` succeeds for every `order ≥ 0`
(the assertion compares `(0, 1)` with `(0, (order + 1) ^ 0)` and passes), the
coefficient tensor has `0` rows and `1` column, and `forward` on any input of
shape `(batch, 0)` returns a `(batch, 1)` tensor whose every entry is `1`. -/
theorem c9_zero_features (order : ℤ) (ho : 0 ≤ order) :
    ∃ fb, FourierBasis.make 0 order = some fb ∧
      fb.coeff.rows = 0 ∧ fb.coeff.cols = 1 ∧
      ∀ x : Tensor2, x.cols = 0 →
        ∃ y, fb.forward x = some y ∧ y.rows = x.rows ∧ y.cols = 1 ∧
          ∀ i j, y.entry i j = 1 := by
  refine ⟨_, make_of_assert 0 order (assertShape_zero_features order), rfl, rfl, ?_⟩
  intro x hx0
  refine ⟨_, forward_of_cols _ x (by rw [hx0]; rfl), rfl, rfl, ?_⟩
  intro i j
  simp [Tensor2.cosT, Tensor2.matmul, hx0]

/-- Claim C2: for every `features ≥ 1` and `order ≥ 0`, the enumeration behind
the columns of the constructed coefficient tensor contains exactly the
multi-indices of the grid `{0, ..., order} ^ features` (each exactly once), in
strictly increasing lexicographic order with the first position most
significant (nested iteration order), and the entry in row `k`, column `j` is
the `k`-th component of the `j`-th multi-index times `π`. -/
theorem c2_columns_enumerate_grid (features : ℕ) (order : ℤ) (fb : FourierBasis)
    (hf : 1 ≤ features) (ho : 0 ≤ order)
    (hmk : FourierBasis.make features order = some fb) :
    (∀ t, t ∈ pyProduct (pyRange order) features ↔
        (t.length = features ∧ ∀ v ∈ t, (v : ℤ) ≤ order)) ∧
    (pyProduct (pyRange order) features).Nodup ∧
    (pyProduct (pyRange order) features).Pairwise (List.Lex (· < ·)) ∧
    (pyProduct (pyRange order) features).length = (order + 1).toNat ^ features ∧
    ∀ k j, fb.coeff.entry k j =
      (((pyProduct (pyRange order) features).getD j []).getD k 0 : ℝ) * Real.pi := by
  obtain ⟨rfl, -⟩ := make_inv features order fb hmk
  refine ⟨?_, pyProduct_nodup _ (pyRange_nodup order) features,
    pyProduct_pairwise_lex _ (pyRange_pairwise order) features, ?_, ?_⟩
  · intro t
    rw [pyProduct_mem]
    simp only [pyRange_mem]
  · rw [pyProduct_length, pyRange, List.length_range]
  · intro k j
    exact coeffTensor_entry features order k j

/-- Claim C7: `FourierBasis(1, 1)` has coefficient matrix `[[0, π]]`;
`forward [[0]]` returns `[[1, 1]]` and `forward [[1]]` returns `[[1, -1]]`. -/
theorem c7_known_values (fb : FourierBasis)
    (hmk : FourierBasis.make 1 1 = some fb) :
    (fb.coeff.rows = 1 ∧ fb.coeff.cols = 2 ∧
      fb.coeff.entry 0 0 = 0 ∧ fb.coeff.entry 0 1 = Real.pi) ∧
    (∃ y, fb.forward ⟨1, 1, fun _ _ => 0⟩ = some y ∧
      y.rows = 1 ∧ y.cols = 2 ∧ y.entry 0 0 = 1 ∧ y.entry 0 1 = 1) ∧
    (∃ y, fb.forward ⟨1, 1, fun _ _ => 1⟩ = some y ∧
      y.rows = 1 ∧ y.cols = 2 ∧ y.entry 0 0 = 1 ∧ y.entry 0 1 = -1) := by
  obtain ⟨rfl, -⟩ := make_inv 1 1 fb hmk
  have c00 : ((pyProduct (pyRange 1) 1).getD 0 []).getD 0 0 = 0 := by decide
  have c01 : ((pyProduct (pyRange 1) 1).getD 1 []).getD 0 0 = 1 := by decide
  have e00 : (coeffTensor 1 1).entry 0 0 = 0 := by
    rw [coeffTensor_entry, c00]
    norm_num
  have e01 : (coeffTensor 1 1).entry 0 1 = Real.pi := by
    rw [coeffTensor_entry, c01]
    norm_num
  refine ⟨⟨rfl, rfl, e00, e01⟩, ⟨_, forward_of_cols _ _ (by rfl), rfl, rfl, ?_, ?_⟩,
    ⟨_, forward_of_cols _ _ (by rfl), rfl, rfl, ?_, ?_⟩⟩
  · show Real.cos (∑ k ∈ Finset.range 1, (0 : ℝ) * (coeffTensor 1 1).entry k 0) = 1
    simp
  · show Real.cos (∑ k ∈ Finset.range 1, (0 : ℝ) * (coeffTensor 1 1).entry k 1) = 1
    simp
  · show Real.cos (∑ k ∈ Finset.range 1, (1 : ℝ) * (coeffTensor 1 1).entry k 0) = 1
    rw [Finset.sum_range_one, one_mul, e00, Real.cos_zero]
  · show Real.cos (∑ k ∈ Finset.range 1, (1 : ℝ) * (coeffTensor 1 1).entry k 1) = -1
    rw [Finset.sum_range_one, one_mul, e01, Real.cos_pi]

/-- Claim C6 (amended): for `FourierBasis(1, 0)` the coefficient matrix is
`[[0.0]]` and `forward [[v]]` returns `[[1.0]]` for every finite value `v`;
for a non-finite input value (`+inf`, `-inf` or `NaN`) the returned entry is
`NaN` (floating-point `±inf * 0.0 = NaN`, `NaN * 0.0 = NaN`, `cos NaN = NaN`),
not `1.0`. -/
theorem c6_order_zero_amended (fb : FourierBasis)
    (hmk : FourierBasis.make 1 0 = some fb) :
    (fb.coeff.rows = 1 ∧ fb.coeff.cols = 1 ∧ fb.coeff.entry 0 0 = 0) ∧
    (∀ v : ℝ, ∃ y, fb.forward ⟨1, 1, fun _ _ => v⟩ = some y ∧
      y.rows = 1 ∧ y.cols = 1 ∧ y.entry 0 0 = 1) ∧
    (∀ w : FP, w = FP.pinf ∨ w = FP.ninf ∨ w = FP.nan →
      ∃ y, fb.forwardFP ⟨1, 1, fun _ _ => w⟩ = some y ∧ y.entry 0 0 = FP.nan) := by
  obtain ⟨rfl, -⟩ := make_inv 1 0 fb hmk
  have c00 : ((pyProduct (pyRange 0) 1).getD 0 []).getD 0 0 = 0 := by decide
  have e00 : (coeffTensor 1 0).entry 0 0 = 0 := by
    rw [coeffTensor_entry, c00]
    norm_num
  refine ⟨⟨rfl, rfl, e00⟩, ?_, ?_⟩
  · intro v
    refine ⟨_, forward_of_cols _ _ (by rfl), rfl, rfl, ?_⟩
    show Real.cos (∑ k ∈ Finset.range 1, v * (coeffTensor 1 0).entry k 0) = 1
    rw [Finset.sum_range_one, e00, mul_zero, Real.cos_zero]
  · intro w hw
    refine ⟨_, by rw [FourierBasis.forwardFP, if_pos (by rfl)], ?_⟩
    show FP.cosF (((List.range 1).map
      (fun k => FP.mul w (FP.num ((coeffTensor 1 0).entry k 0)))).foldr FP.add (FP.num 0))
      = FP.nan
    rw [List.range_succ, List.range_zero, List.nil_append, List.map_cons, List.map_nil,
      List.foldr_cons, List.foldr_nil, e00]
    rcases hw with rfl | rfl | rfl <;> simp [FP.mul, FP.add, FP.cosF]

/-- Claim C6 counterexample: under floating-point semantics, `forward` of
`FourierBasis(1, 0)` on the input `[[+inf]]` yields `[[NaN]]`, not `[[1.0]]`:
the matrix product computes `inf * 0.0 = NaN` and `cos NaN = NaN`. -/
theorem c6_counterexample_inf_input :
    Option.map (fun y => y.entry 0 0) (fbOneZero.forwardFP ⟨1, 1, fun _ _ => FP.pinf⟩)
      = some FP.nan ∧ FP.nan ≠ FP.num 1 := by
  have c00 : ((pyProduct (pyRange 0) 1).getD 0 []).getD 0 0 = 0 := by decide
  have e00 : (coeffTensor 1 0).entry 0 0 = 0 := by
    rw [coeffTensor_entry, c00]
    norm_num
  constructor
  · rw [FourierBasis.forwardFP, if_pos (by rfl)]
    show some ((FPTensor2.cosT (FPTensor2.matmul ⟨1, 1, fun _ _ => FP.pinf⟩
      (Tensor2.toFP (coeffTensor 1 0)))).entry 0 0) = some FP.nan
    refine congrArg some ?_
    show FP.cosF (((List.range 1).map
      (fun k => FP.mul FP.pinf (FP.num ((coeffTensor 1 0).entry k 0)))).foldr FP.add (FP.num 0))
      = FP.nan
    rw [List.range_succ, List.range_zero, List.nil_append, List.map_cons, List.map_nil,
      List.foldr_cons, List.foldr_nil, e00]
    simp [FP.mul, FP.add, FP.cosF]
  · intro h
    exact FP.noConfusion h

/-- Claim C4 counterexample: constructing with `features = 0` does not fail:
the shape assertion compares `(0, 1)` with `(0, 1)` and passes, so
`FourierBasis(0, 0)` is built and no error of any kind is raised. -/
theorem c4_counterexample_zero_features : (FourierBasis.make 0 0).isSome = true := by
  rw [make_of_assert 0 0 (by decide)]
  rfl

/-- Claim C4 (amended): the constructor performs no argument validation and no
`InvalidArgument` error exists in the code.  Constructing with `features = 0`
succeeds (for every `order`); constructing with `features ≥ 1` and `order < 0`
does fail, but with the `AssertionError` of the constructor shape assertion. -/
theorem c4_validation_amended (features : ℕ) (order : ℤ) :
    (features = 0 → (FourierBasis.make features order).isSome = true) ∧
    (1 ≤ features → order < 0 →
      assertShape features order = false ∧ FourierBasis.make features order = none) := by
  constructor
  · rintro rfl
    rw [make_of_assert 0 order (assertShape_zero_features order)]
    rfl
  · intro hf ho
    have ha := assertShape_of_neg features order hf ho
    refine ⟨ha, ?_⟩
    rw [FourierBasis.make, if_neg]
    simp [ha]

/-- Claim C10: `forward` on a three-dimensional input of shape
`(n, batch, features)` succeeds, returns a tensor of shape
`(n, batch, (order + 1) ^ features)`, and its slice at each leading index `i`
equals `forward` applied to the corresponding two-dimensional input slice. -/
theorem c10_batched_forward (features : ℕ) (order : ℤ) (fb : FourierBasis)
    (hf : 1 ≤ features) (ho : 0 ≤ order)
    (hmk : FourierBasis.make features order = some fb)
    (x : Tensor3) (hx : x.cols = features) :
    ∃ y, fb.forward3 x = some y ∧
      y.dim0 = x.dim0 ∧ y.rows = x.rows ∧ y.cols = (order + 1).toNat ^ features ∧
      ∀ i, fb.forward (x.slice i) = some (y.slice i) := by
  have hrows := make_coeff_rows features order fb hmk
  obtain ⟨rfl, -⟩ := make_inv features order fb hmk
  have hguard : x.cols = (coeffTensor features order).rows := by
    rw [hx]
    exact hrows.symm
  refine ⟨Tensor3.cosT (Tensor3.matmul2 x (coeffTensor features order)), ?_, rfl, rfl,
    coeffTensor_cols features order, ?_⟩
  · rw [FourierBasis.forward3, if_pos hguard]
  · intro i
    rw [forward_of_cols ⟨features, order, coeffTensor features order⟩ (x.slice i) hguard]
    rfl

/-! ### Concrete witnesses instantiating the claims -/

/-- Witness for C1 at `features = 1, order = 0` and input `[[5]]`. -/
theorem c1_witness :
    ∃ y, fbOneZero.forward ⟨1, 1, fun _ _ => 5⟩ = some y ∧
      y = Tensor2.cosT (Tensor2.matmul ⟨1, 1, fun _ _ => 5⟩ fbOneZero.coeff) ∧
      y.rows = 1 ∧ y.cols = 1 ∧
      ∀ i j, y.entry i j =
        Real.cos (∑ k ∈ Finset.range 1, (5 : ℝ) * fbOneZero.coeff.entry k j) :=
  c1_forward_is_cos_matmul 1 0 fbOneZero (by decide) (by decide) make_one_zero
    ⟨1, 1, fun _ _ => 5⟩ rfl

/-- Witness for C2 at `features = 1, order = 0`. -/
theorem c2_witness :
    (∀ t, t ∈ pyProduct (pyRange 0) 1 ↔ (t.length = 1 ∧ ∀ v ∈ t, (v : ℤ) ≤ 0)) ∧
    (pyProduct (pyRange 0) 1).Nodup ∧
    (pyProduct (pyRange 0) 1).Pairwise (List.Lex (· < ·)) ∧
    (pyProduct (pyRange 0) 1).length = 1 ∧
    ∀ k j, fbOneZero.coeff.entry k j =
      (((pyProduct (pyRange 0) 1).getD j []).getD k 0 : ℝ) * Real.pi :=
  c2_columns_enumerate_grid 1 0 fbOneZero (by decide) (by decide) make_one_zero

/-- Witness for C3 at `features = 1, order = 0`. -/
theorem c3_witness :
    assertShape 1 0 = true ∧
    ∃ fb, FourierBasis.make 1 0 = some fb ∧ fb.coeff.rows = 1 ∧ fb.coeff.cols = 1 :=
  c3_construction_succeeds 1 0 (by decide) (by decide)

/-- Witness for C4 (amended) at `(features, order) = (0, 5)` and `(3, -1)`. -/
theorem c4_witness :
    (FourierBasis.make 0 5).isSome = true ∧
    (assertShape 3 (-1) = false ∧ FourierBasis.make 3 (-1) = none) :=
  ⟨(c4_validation_amended 0 5).1 rfl,
    (c4_validation_amended 3 (-1)).2 (by decide) (by decide)⟩

/-- Witness for C5: `FourierBasis(1, 0)` rejects an input with 2 columns. -/
theorem c5_witness : fbOneZero.forward ⟨1, 2, fun _ _ => 0⟩ = none :=
  c5_shape_mismatch_fails 1 0 fbOneZero make_one_zero ⟨1, 2, fun _ _ => 0⟩ (by decide)

/-- Witness for C6 (amended): `FourierBasis(1, 0)` maps `[[7]]` to `[[1]]`. -/
theorem c6_witness :
    ∃ y, fbOneZero.forward ⟨1, 1, fun _ _ => 7⟩ = some y ∧
      y.rows = 1 ∧ y.cols = 1 ∧ y.entry 0 0 = 1 :=
  (c6_order_zero_amended fbOneZero make_one_zero).2.1 7

/-- Witness for C7 at the encoder `FourierBasis(1, 1)`. -/
theorem c7_witness :
    (fbOneOne.coeff.rows = 1 ∧ fbOneOne.coeff.cols = 2 ∧
      fbOneOne.coeff.entry 0 0 = 0 ∧ fbOneOne.coeff.entry 0 1 = Real.pi) ∧
    (∃ y, fbOneOne.forward ⟨1, 1, fun _ _ => 0⟩ = some y ∧
      y.rows = 1 ∧ y.cols = 2 ∧ y.entry 0 0 = 1 ∧ y.entry 0 1 = 1) ∧
    (∃ y, fbOneOne.forward ⟨1, 1, fun _ _ => 1⟩ = some y ∧
      y.rows = 1 ∧ y.cols = 2 ∧ y.entry 0 0 = 1 ∧ y.entry 0 1 = -1) :=
  c7_known_values fbOneOne make_one_one

/-- Witness for C8 at `features = 1, order = 0`. -/
theorem c8_witness :
    fbOneZero = fbOneZero ∧ fbOneZero.coeff = fbOneZero.coeff ∧
      (∀ x : Tensor2, fbOneZero.forward x = fbOneZero.forward x) ∧
      (∀ x : Tensor3, fbOneZero.forward3 x = fbOneZero.forward3 x) :=
  c8_deterministic 1 0 (by decide) (by decide) fbOneZero fbOneZero make_one_zero make_one_zero

/-- Witness for C9 at `order = 0`. -/
theorem c9_witness :
    ∃ fb, FourierBasis.make 0 0 = some fb ∧
      fb.coeff.rows = 0 ∧ fb.coeff.cols = 1 ∧
      ∀ x : Tensor2, x.cols = 0 →
        ∃ y, fb.forward x = some y ∧ y.rows = x.rows ∧ y.cols = 1 ∧
          ∀ i j, y.entry i j = 1 :=
  c9_zero_features 0 (by decide)

/-- Witness for C10 at `features = 1, order = 0` and a `(2, 1, 1)` input. -/
theorem c10_witness :
    ∃ y, fbOneZero.forward3 ⟨2, 1, 1, fun _ _ _ => 3⟩ = some y ∧
      y.dim0 = 2 ∧ y.rows = 1 ∧ y.cols = 1 ∧
      ∀ i, fbOneZero.forward ((⟨2, 1, 1, fun _ _ _ => 3⟩ : Tensor3).slice i) = some (y.slice i) :=
  c10_batched_forward 1 0 fbOneZero (by decide) (by decide) make_one_zero
    ⟨2, 1, 1, fun _ _ _ => 3⟩ rfl
